import Mathlib

/-!
Shallow embedding of the p2p-file-sharing repository (Python) and proofs
about it.  Each Python component is translated into executable Lean
definitions:

* Python `dict`s become association lists (`lookupKey`/`setKey`/`eraseKey`
  reproduce dict lookup, assignment and deletion; assignment keeps the
  original position of an existing key, as CPython dicts do).
* Python `set`s become duplicate-free lists (`setInsert`).
* Python `bytes` become `List Nat`; `float` timestamps and rates become `Rat`.
* `hashlib.sha1(...).hexdigest()` is an external library call and is passed
  in as an abstract function `sha1 : ByteStr → String`.
-/

namespace P2P

/-- Python `time.time()` timestamps, modelled as integers — the claims
never exercise fractional time, only ordering and differences.  Transfer
rates, which involve division, are modelled as rationals (`Rat`). -/
abbrev Time := Int

/-- Python `bytes` modelled as a list of byte values. -/
abbrev ByteStr := List Nat

/-- Dict lookup: `d[k]` / `d.get(k)` on an association list. -/
def lookupKey {K V : Type} [DecidableEq K] (d : List (K × V)) (k : K) : Option V :=
  match d with
  | [] => none
  | (k₀, v) :: rest => if k₀ = k then some v else lookupKey rest k

/-- Dict membership: `k in d`. -/
def hasKey {K V : Type} [DecidableEq K] (d : List (K × V)) (k : K) : Bool :=
  (lookupKey d k).isSome

/-- Dict assignment `d[k] = v`: overwrite in place, or append a new entry
(CPython keeps the original insertion position when overwriting). -/
def setKey {K V : Type} [DecidableEq K] (d : List (K × V)) (k : K) (v : V) : List (K × V) :=
  match d with
  | [] => [(k, v)]
  | (k₀, v₀) :: rest => if k₀ = k then (k, v) :: rest else (k₀, v₀) :: setKey rest k v

/-- Dict deletion `del d[k]` (no-op when the key is absent, matching the
guarded deletions in the source). -/
def eraseKey {K V : Type} [DecidableEq K] (d : List (K × V)) (k : K) : List (K × V) :=
  match d with
  | [] => []
  | (k₀, v₀) :: rest => if k₀ = k then rest else (k₀, v₀) :: eraseKey rest k

/-- Set insertion `s.add(x)` on a duplicate-free list. -/
def setInsert {α : Type} [DecidableEq α] (s : List α) (x : α) : List α :=
  if x ∈ s then s else s ++ [x]

@[simp] theorem lookupKey_nil {K V : Type} [DecidableEq K] (k : K) :
    lookupKey ([] : List (K × V)) k = none := rfl

@[simp] theorem lookupKey_cons {K V : Type} [DecidableEq K] (k₀ : K) (v : V) (rest : List (K × V)) (k : K) :
    lookupKey ((k₀, v) :: rest) k = if k₀ = k then some v else lookupKey rest k := rfl

theorem lookupKey_setKey_self {K V : Type} [DecidableEq K] (d : List (K × V)) (k : K) (v : V) :
    lookupKey (setKey d k v) k = some v := by
  induction d with
  | nil => simp [setKey, lookupKey]
  | cons hd tl ih =>
    obtain ⟨k₀, v₀⟩ := hd
    by_cases h : k₀ = k <;> simp [setKey, lookupKey, h, ih]

theorem lookupKey_setKey_ne {K V : Type} [DecidableEq K] (d : List (K × V)) (k a : K) (v : V)
    (h : a ≠ k) : lookupKey (setKey d k v) a = lookupKey d a := by
  induction d with
  | nil => simp [setKey, lookupKey, Ne.symm h]
  | cons hd tl ih =>
    obtain ⟨k₀, v₀⟩ := hd
    by_cases hk : k₀ = k
    · subst hk
      simp [setKey, lookupKey, Ne.symm h]
    · simp only [setKey, if_neg hk, lookupKey_cons]
      by_cases ha : k₀ = a <;> simp [ha, ih]

theorem lookupKey_eq_none_of_not_mem {K V : Type} [DecidableEq K] (d : List (K × V)) (k : K)
    (h : ¬ k ∈ d.map Prod.fst) : lookupKey d k = none := by
  induction d with
  | nil => rfl
  | cons hd tl ih =>
    obtain ⟨k₀, v₀⟩ := hd
    simp only [List.map_cons, List.mem_cons] at h
    push_neg at h
    simp only [lookupKey_cons, if_neg (Ne.symm h.1)]
    exact ih h.2

theorem lookupKey_eraseKey_self {K V : Type} [DecidableEq K] (d : List (K × V)) (k : K)
    (hnd : (d.map Prod.fst).Nodup) : lookupKey (eraseKey d k) k = none := by
  induction d with
  | nil => simp [eraseKey]
  | cons hd tl ih =>
    obtain ⟨k₀, v₀⟩ := hd
    simp only [List.map_cons, List.nodup_cons] at hnd
    by_cases h : k₀ = k
    · subst h
      simp only [eraseKey, if_pos rfl]
      exact lookupKey_eq_none_of_not_mem tl k₀ hnd.1
    · simp only [eraseKey, if_neg h, lookupKey_cons, if_neg h]
      exact ih hnd.2

theorem lookupKey_eraseKey_ne {K V : Type} [DecidableEq K] (d : List (K × V)) (k a : K)
    (h : a ≠ k) : lookupKey (eraseKey d k) a = lookupKey d a := by
  induction d with
  | nil => simp [eraseKey]
  | cons hd tl ih =>
    obtain ⟨k₀, v₀⟩ := hd
    by_cases hk : k₀ = k
    · subst hk
      simp [eraseKey, lookupKey, Ne.symm h]
    · simp only [eraseKey, if_neg hk, lookupKey_cons]
      by_cases ha : k₀ = a <;> simp [ha, ih]

/-! ## Piece store (`src/torrent/piece_manager.py`, class `PieceManager`)

Fields follow `PieceManager.__init__`:
`completed_pieces` is a set, `in_progress_pieces` maps piece id → claim
timestamp, `pending_verification` maps piece id → buffered bytes.
`backing_file` models the bytes behind `file_handle` (`none` before
`init_storage` has run). -/

structure PieceManager where
  piece_size : Nat
  pieces_hashes : List String
  total_size : Nat
  completed_pieces : List Nat
  in_progress_pieces : List (Nat × Time)
  pending_verification : List (Nat × ByteStr)
  backing_file : Option ByteStr
  deriving DecidableEq, Repr

namespace PieceManager

/-- `self.total_pieces = len(pieces_hashes)` (set once in `__init__`). -/
def total_pieces (pm : PieceManager) : Nat := pm.pieces_hashes.length

/-- A fresh manager, as built by `PieceManager.__init__`. -/
def init (piece_size : Nat) (pieces_hashes : List String) (total_size : Nat) : PieceManager :=
  { piece_size := piece_size
    pieces_hashes := pieces_hashes
    total_size := total_size
    completed_pieces := []
    in_progress_pieces := []
    pending_verification := []
    backing_file := none }

/-- The spec's four-valued `PieceState`, read off the manager's three
tracking collections (spec §3: Missing / InFlight / PendingVerify /
Complete). -/
inductive State where
  | missing
  | inFlight
  | pendingVerify
  | complete
  deriving DecidableEq, Repr

/-- View a piece's state.  A completed piece counts as Complete whatever
else mentions it; a buffered piece as PendingVerify; a claimed piece as
InFlight; otherwise Missing. -/
def pieceState (pm : PieceManager) (piece_id : Nat) : State :=
  if piece_id ∈ pm.completed_pieces then .complete
  else if hasKey pm.pending_verification piece_id then .pendingVerify
  else if hasKey pm.in_progress_pieces piece_id then .inFlight
  else .missing

/-- `PieceManager.is_piece_needed` (lines 71–83). -/
def is_piece_needed (pm : PieceManager) (piece_id : Nat) : Bool :=
  ¬ piece_id ∈ pm.completed_pieces ∧ ¬ hasKey pm.in_progress_pieces piece_id

/-- `PieceManager.mark_piece_in_progress` (lines 85–100): refuse when the
piece is in `in_progress_pieces` or `completed_pieces`, otherwise record
`in_progress_pieces[piece_id] = time.time()` and report success.  `now` is
the value of `time.time()`. -/
def mark_piece_in_progress (now : Time) (pm : PieceManager) (piece_id : Nat) :
    PieceManager × Bool :=
  if hasKey pm.in_progress_pieces piece_id ∨ piece_id ∈ pm.completed_pieces then
    (pm, false)
  else
    ({ pm with in_progress_pieces := setKey pm.in_progress_pieces piece_id now }, true)

/-- `PieceManager.receive_piece` (lines 102–123): drop the piece from
`in_progress_pieces` if present, buffer the bytes in
`pending_verification`, spawn the verification thread, and return `True`
unconditionally.  The spawned `_verify_and_save_piece` is modelled by the
separate function below; the pair of this function and that one is the
spec's `submit`. -/
def receive_piece (pm : PieceManager) (piece_id : Nat) (data : ByteStr) :
    PieceManager × Bool :=
  ({ pm with
      in_progress_pieces := eraseKey pm.in_progress_pieces piece_id
      pending_verification := setKey pm.pending_verification piece_id data }, true)

/-- `file.seek(offset); file.write(data)` on the pre-allocated backing
file. -/
def writeAt (f : ByteStr) (offset : Nat) (data : ByteStr) : ByteStr :=
  f.take offset ++ data ++ f.drop (offset + data.length)

/-- `PieceManager._verify_and_save_piece` (lines 125–153), the body of the
verification thread: take the buffered bytes out of
`pending_verification`, compare `hashlib.sha1(data).hexdigest()` against
`pieces_hashes[piece_id]`, and on a match write at offset
`piece_id * piece_size` (via `_write_piece_to_disk`, lines 155–174) and add
the piece to `completed_pieces`.  No length check appears anywhere in the
source.  `pieces_hashes[piece_id]` is modelled with a `getD` default; the
theorems below keep `piece_id` in range, where the two agree.  When
`file_handle` is `None`, `_write_piece_to_disk` raises `RuntimeError`
outside any handler, so the thread dies after the buffer was removed and
before the piece is marked complete; the `none` branch mirrors that. -/
def verify_and_save_piece (sha1 : ByteStr → String) (pm : PieceManager) (piece_id : Nat) :
    PieceManager :=
  match lookupKey pm.pending_verification piece_id with
  | none => pm
  | some data =>
    let pm₁ := { pm with pending_verification := eraseKey pm.pending_verification piece_id }
    if sha1 data ≠ pm.pieces_hashes.getD piece_id "" then pm₁
    else
      match pm₁.backing_file with
      | none => pm₁
      | some f =>
        { pm₁ with
            backing_file := some (writeAt f (piece_id * pm.piece_size) data)
            completed_pieces := setInsert pm₁.completed_pieces piece_id }

/-- The spec's `submit` operation: `receive_piece` followed by the
verification step it spawns, together with `receive_piece`'s return
value. -/
def submitPiece (sha1 : ByteStr → String) (pm : PieceManager) (piece_id : Nat)
    (data : ByteStr) : PieceManager × Bool :=
  let r := receive_piece pm piece_id data
  (verify_and_save_piece sha1 r.1 piece_id, r.2)

/-- `PieceManager.get_download_progress` (lines 197–207), as a rational
percentage. -/
def get_download_progress (pm : PieceManager) : Rat :=
  if pm.total_pieces = 0 then 0
  else (pm.completed_pieces.length : Rat) / (pm.total_pieces : Rat) * 100

/-- `PieceManager.is_complete` (lines 209–217). -/
def is_complete (pm : PieceManager) : Bool :=
  pm.completed_pieces.length = pm.total_pieces

/-- `PieceManager.get_needed_pieces` (lines 219–231): every index in
`range(total_pieces)` that is neither completed nor in progress, in
ascending order. -/
def get_needed_pieces (pm : PieceManager) : List Nat :=
  (List.range pm.total_pieces).filter
    (fun i => ¬ i ∈ pm.completed_pieces ∧ ¬ hasKey pm.in_progress_pieces i)

end PieceManager

/-! ### Concrete instances used by closed theorems -/

/-- A one-piece manager whose expected hash is `"ffff"`, with piece 0
claimed (InFlight) and storage initialized to four zero bytes. -/
def pmMismatch : PieceManager :=
  { piece_size := 4
    pieces_hashes := ["ffff"]
    total_size := 4
    completed_pieces := []
    in_progress_pieces := [(0, 0)]
    pending_verification := []
    backing_file := some [0, 0, 0, 0] }

/-- A stand-in hash function that returns a constant digest distinct from
`pmMismatch`'s expected hash — any function with `shaStub d ≠ "ffff"` at
the tested input exhibits the same behaviour of the code, which never
consults the digest before reporting success. -/
def shaStub : ByteStr → String := fun _ => "0000"

/-- A one-piece manager in which piece 0 sits in `pending_verification`
(received, not yet verified) and nothing is claimed or complete. -/
def pmPending : PieceManager :=
  { piece_size := 4
    pieces_hashes := ["ffff"]
    total_size := 4
    completed_pieces := []
    in_progress_pieces := []
    pending_verification := [(0, [1, 2, 3, 4])]
    backing_file := some [0, 0, 0, 0] }

/-- C1.  The claim says the submit operation "returns success iff the
SHA-1 of data equals H[piece_id] and len(data) equals the expected length
… on any mismatch the piece returns to Missing and the operation returns
failure".  The code instead returns `True` unconditionally from
`receive_piece` (its own docstring promises "True if piece was valid and
saved"), because verification runs later on a daemon thread: at a concrete
input whose digest mismatches the expected hash (and whose length is wrong
as well), the operation still reports success, while the piece does return
to Missing, nothing is written and nothing is completed. -/
theorem receive_piece_reports_success_despite_hash_mismatch :
    (PieceManager.submitPiece shaStub pmMismatch 0 [9, 9]).2 = true ∧
    shaStub [9, 9] ≠ pmMismatch.pieces_hashes.getD 0 "" ∧
    PieceManager.pieceState (PieceManager.submitPiece shaStub pmMismatch 0 [9, 9]).1 0 =
      PieceManager.State.missing ∧
    (PieceManager.submitPiece shaStub pmMismatch 0 [9, 9]).1.backing_file =
      pmMismatch.backing_file ∧
    (PieceManager.submitPiece shaStub pmMismatch 0 [9, 9]).1.completed_pieces = [] := by
  refine ⟨rfl, ?_, rfl, rfl, rfl⟩
  decide

/-- C2 (counterexample).  The claim says claiming a piece that is
PendingVerify returns false; on `pmPending`, piece 0 is PendingVerify and
`mark_piece_in_progress` nevertheless succeeds, because the code only
consults `in_progress_pieces` and `completed_pieces`. -/
theorem claim_pending_verify_succeeds_cex :
    PieceManager.pieceState pmPending 0 = PieceManager.State.pendingVerify ∧
    (PieceManager.mark_piece_in_progress 5 pmPending 0).2 = true := by
  exact ⟨rfl, rfl⟩

/-- C2 (amended).  `mark_piece_in_progress` succeeds iff the piece is
neither in the in-progress table nor completed — the pending-verification
buffer is not consulted, so a PendingVerify piece is claimable; on success
the piece is recorded in flight with `started_at = now` and nothing else
changes; on failure the manager is untouched.  Claiming a Complete piece
still returns false, as the original claim states. -/
theorem mark_piece_in_progress_spec (now : Time) (pm : PieceManager) (piece_id : Nat) :
    ((PieceManager.mark_piece_in_progress now pm piece_id).2 = true ↔
      (lookupKey pm.in_progress_pieces piece_id = none ∧ ¬ piece_id ∈ pm.completed_pieces)) ∧
    ((PieceManager.mark_piece_in_progress now pm piece_id).2 = true →
      lookupKey (PieceManager.mark_piece_in_progress now pm piece_id).1.in_progress_pieces
          piece_id = some now ∧
      (PieceManager.mark_piece_in_progress now pm piece_id).1.completed_pieces =
        pm.completed_pieces ∧
      (PieceManager.mark_piece_in_progress now pm piece_id).1.pending_verification =
        pm.pending_verification) ∧
    ((PieceManager.mark_piece_in_progress now pm piece_id).2 = false →
      (PieceManager.mark_piece_in_progress now pm piece_id).1 = pm) := by
  unfold PieceManager.mark_piece_in_progress
  split_ifs with h
  · refine ⟨?_, ?_, ?_⟩
    · constructor
      · intro hh
        simp at hh
      · rintro ⟨h₁, h₂⟩
        rcases h with h | h
        · unfold hasKey at h
          rw [h₁] at h
          simp at h
        · exact absurd h h₂
    · intro hh
      simp at hh
    · intro _
      rfl
  · push_neg at h
    obtain ⟨h₁, h₂⟩ := h
    refine ⟨?_, ?_, ?_⟩
    · constructor
      · intro _
        refine ⟨?_, h₂⟩
        cases hlk : lookupKey pm.in_progress_pieces piece_id with
        | none => rfl
        | some v =>
          exact absurd (by unfold hasKey; rw [hlk]; rfl) h₁
      · intro _
        rfl
    · intro _
      exact ⟨lookupKey_setKey_self _ _ _, rfl, rfl⟩
    · intro hh
      simp at hh

/-! ## Piece selection (`src/strategies/piece_selection.py`)

`RarestFirstStrategy.select_next_piece` builds `piece_availability` (a dict
keyed by the needed, not-in-progress piece ids, in the order of the needed
list), sorts its items by availability with Python's stable `sorted`, and
returns the first `max(0, max_pipeline_depth - len(in_progress_pieces))`
ids.  The stable sort is modelled by a stable insertion sort
(`sortLE`). -/

/-- Stable insertion: place `x` after every element `y` with `le y x`. -/
def insertLE {α : Type} (le : α → α → Bool) (x : α) : List α → List α
  | [] => [x]
  | y :: ys => if le y x then y :: insertLE le x ys else x :: y :: ys

/-- Stable insertion sort: elements with equal keys keep their input
order, exactly as Python's `sorted`. -/
def sortLE {α : Type} (le : α → α → Bool) (l : List α) : List α :=
  l.foldl (fun acc x => insertLE le x acc) []

/-- The comparison used by the source: by availability count only
(`key=lambda x: x[1]`). -/
def availLE (a b : Nat × Nat) : Bool := a.2 ≤ b.2

/-- The ordering the claim describes: ascending availability with ties
broken by ascending piece index. -/
def lexLE (a b : Nat × Nat) : Bool := decide (a.2 < b.2 ∨ (a.2 = b.2 ∧ a.1 ≤ b.1))

/-- `sum(1 for pieces in peer_pieces.values() if piece_id in pieces)`
(piece_selection.py:29–31). -/
def availability (peer_pieces : List (String × List Nat)) (piece_id : Nat) : Nat :=
  (peer_pieces.filter (fun e => piece_id ∈ e.2)).length

/-- `RarestFirstStrategy.select_next_piece` (piece_selection.py:13–40).
`in_progress_pieces` maps piece id → progress. -/
def RarestFirstStrategy.select_next_piece (needed_pieces : List Nat)
    (peer_pieces : List (String × List Nat)) (in_progress_pieces : List (Nat × Rat))
    (max_pipeline_depth : Nat) : List Nat :=
  let piece_availability :=
    (needed_pieces.filter (fun p => ¬ hasKey in_progress_pieces p)).map
      (fun p => (p, availability peer_pieces p))
  let rarest_pieces := sortLE availLE piece_availability
  let available_slots := max_pipeline_depth - in_progress_pieces.length
  (rarest_pieces.take available_slots).map Prod.fst

/-- The claim's description of the result, word for word: needed pieces
not in flight, ordered by ascending availability with ties broken by
ascending PieceIndex, truncated to the first
`max_pipeline_depth − |in_flight|` entries. -/
def rarestFirstSpec (needed_pieces : List Nat) (peer_pieces : List (String × List Nat))
    (in_progress_pieces : List (Nat × Rat)) (max_pipeline_depth : Nat) : List Nat :=
  let candidates :=
    (needed_pieces.filter (fun p => ¬ hasKey in_progress_pieces p)).map
      (fun p => (p, availability peer_pieces p))
  ((sortLE lexLE candidates).take
      (max_pipeline_depth - in_progress_pieces.length)).map Prod.fst

theorem mem_insertLE {α : Type} (le : α → α → Bool) (x z : α) (acc : List α) :
    z ∈ insertLE le x acc → z = x ∨ z ∈ acc := by
  induction acc with
  | nil =>
    intro h
    simp only [insertLE, List.mem_singleton] at h
    exact Or.inl h
  | cons y ys ih =>
    intro h
    simp only [insertLE] at h
    by_cases hle : le y x
    · rw [if_pos hle] at h
      rcases List.mem_cons.mp h with h | h
      · exact Or.inr (List.mem_cons.mpr (Or.inl h))
      · rcases ih h with h | h
        · exact Or.inl h
        · exact Or.inr (List.mem_cons.mpr (Or.inr h))
    · rw [if_neg hle] at h
      rcases List.mem_cons.mp h with h | h
      · exact Or.inl h
      · exact Or.inr h

theorem insertLE_avail_eq_lex (x : Nat × Nat) (acc : List (Nat × Nat))
    (h : ∀ y ∈ acc, y.1 < x.1) : insertLE availLE x acc = insertLE lexLE x acc := by
  induction acc with
  | nil => rfl
  | cons y ys ih =>
    have hy : y.1 < x.1 := h y (List.mem_cons_self _ _)
    have hcond : availLE y x = lexLE y x := by
      unfold availLE lexLE
      by_cases hle : y.2 ≤ x.2
      · rcases Nat.lt_or_ge y.2 x.2 with hlt | hge
        · simp [hle, hlt]
        · have heq : y.2 = x.2 := Nat.le_antisymm hle hge
          simp [hle, heq, Nat.le_of_lt hy]
      · have h₁ : ¬ y.2 < x.2 := fun hh => hle (Nat.le_of_lt hh)
        have h₂ : y.2 ≠ x.2 := fun hh => hle (Nat.le_of_eq hh)
        simp [hle, h₁, h₂]
    simp only [insertLE, hcond]
    split_ifs with hle
    · rw [ih (fun z hz => h z (List.mem_cons.mpr (Or.inr hz)))]
    · rfl

theorem foldl_insert_avail_eq_lex (l acc : List (Nat × Nat))
    (hl : l.Pairwise (fun a b => a.1 < b.1))
    (hacc : ∀ x ∈ l, ∀ y ∈ acc, y.1 < x.1) :
    l.foldl (fun acc x => insertLE availLE x acc) acc =
      l.foldl (fun acc x => insertLE lexLE x acc) acc := by
  induction l generalizing acc with
  | nil => rfl
  | cons x xs ih =>
    simp only [List.foldl_cons]
    rw [insertLE_avail_eq_lex x acc (hacc x (List.mem_cons_self _ _))]
    refine ih _ (List.Pairwise.of_cons hl) ?_
    intro z hz y hy
    rcases mem_insertLE lexLE x y acc hy with hy | hy
    · rw [hy]
      exact (List.pairwise_cons.mp hl).1 z hz
    · exact hacc z (List.mem_cons.mpr (Or.inr hz)) y hy

theorem sortLE_avail_eq_lex (l : List (Nat × Nat))
    (hl : l.Pairwise (fun a b => a.1 < b.1)) :
    sortLE availLE l = sortLE lexLE l := by
  unfold sortLE
  exact foldl_insert_avail_eq_lex l [] hl (fun x _ y hy => absurd hy (List.not_mem_nil y))

/-- C6.  On the needed list produced by `PieceManager.get_needed_pieces`
(ascending piece ids, as in the source), the rarest-first selection equals
the claim's description: needed pieces not in flight, ordered by ascending
availability with ties broken by ascending piece index, truncated to the
first `max_pipeline_depth − |in_flight|` entries.  Python's stable sort
breaks ties by position in the needed list; the tie-break by piece index
holds because `get_needed_pieces` emits indices in ascending order. -/
theorem rarest_first_matches_spec (pm : PieceManager)
    (peer_pieces : List (String × List Nat)) (in_progress_pieces : List (Nat × Rat))
    (max_pipeline_depth : Nat) :
    RarestFirstStrategy.select_next_piece (pm.get_needed_pieces) peer_pieces
        in_progress_pieces max_pipeline_depth =
      rarestFirstSpec (pm.get_needed_pieces) peer_pieces in_progress_pieces
        max_pipeline_depth := by
  unfold RarestFirstStrategy.select_next_piece rarestFirstSpec
  have hpw : (((pm.get_needed_pieces).filter
      (fun p => ¬ hasKey in_progress_pieces p)).map
        (fun p => (p, availability peer_pieces p))).Pairwise
          (fun a b : Nat × Nat => a.1 < b.1) := by
    rw [List.pairwise_map]
    apply List.Pairwise.filter
    unfold PieceManager.get_needed_pieces
    apply List.Pairwise.filter
    exact List.pairwise_lt_range _
  simp only [sortLE_avail_eq_lex _ hpw]

/-! ## Hex codec (Python `bytes.hex` / `bytes.fromhex`)

Used by `MessageFactory.piece_response` (encode) and
`Node._handle_peer_message` (decode).  `bytes.fromhex` raises `ValueError`
on malformed input, modelled as `none`.  (Python also tolerates whitespace
between byte pairs; the claims only concern well-formed hex, where the
two agree.) -/

/-- Lower-case hex digit of a value below 16, as `bytes.hex` emits. -/
def hexDigit (n : Nat) : Char :=
  if n < 10 then Char.ofNat (48 + n) else Char.ofNat (87 + n)

/-- `data.hex()`. -/
def bytesToHex (data : ByteStr) : String :=
  ⟨(data.map (fun b => [hexDigit (b / 16), hexDigit (b % 16)])).flatten⟩

/-- Value of one hex digit, case-insensitive like `bytes.fromhex`. -/
def hexDigitVal (c : Char) : Option Nat :=
  if 48 ≤ c.toNat ∧ c.toNat ≤ 57 then some (c.toNat - 48)
  else if 97 ≤ c.toNat ∧ c.toNat ≤ 102 then some (c.toNat - 87)
  else if 65 ≤ c.toNat ∧ c.toNat ≤ 70 then some (c.toNat - 55)
  else none

/-- Decode pairs of hex digits into bytes. -/
def hexDecodeChars : List Char → Option ByteStr
  | [] => some []
  | [_] => none
  | c₁ :: c₂ :: rest => do
      let hi ← hexDigitVal c₁
      let lo ← hexDigitVal c₂
      let tl ← hexDecodeChars rest
      pure ((16 * hi + lo) :: tl)

/-- `bytes.fromhex(s)`. -/
def bytes_fromhex (s : String) : Option ByteStr := hexDecodeChars s.data

/-! ## Peer statistics (`src/strategies/choking.py`, class `UploadSlotManager`) -/

/-- One entry of `UploadSlotManager.peer_stats` (choking.py:119–125).
Rates are Python floats, modelled as rationals. -/
structure PeerStat where
  upload_total : Nat
  download_total : Nat
  upload_rate : Rat
  download_rate : Rat
  last_updated : Time
  deriving DecidableEq, Repr

/-- The fresh entry created for an unknown peer. -/
def newPeerStat (now : Time) : PeerStat :=
  { upload_total := 0, download_total := 0, upload_rate := 0, download_rate := 0
    last_updated := now }

/-- `UploadSlotManager.update_peer_stats` (choking.py:108–140): create the
entry if missing, add the byte counts to the totals, recompute the rates
when time has passed since `last_updated`, and stamp `last_updated`. -/
def update_peer_stats (now : Time) (stats : List (String × PeerStat)) (peer : String)
    (bytes_downloaded bytes_uploaded : Nat) : List (String × PeerStat) :=
  let st := (lookupKey stats peer).getD (newPeerStat now)
  let time_diff := now - st.last_updated
  let st₁ := { st with
      upload_total := st.upload_total + bytes_uploaded
      download_total := st.download_total + bytes_downloaded }
  let st₂ :=
    if 0 < time_diff then
      { st₁ with
          upload_rate := (bytes_uploaded : Rat) / (time_diff : Rat)
          download_rate := (bytes_downloaded : Rat) / (time_diff : Rat) }
    else st₁
  setKey stats peer { st₂ with last_updated := now }

/-! ## Piece selection manager state (`src/strategies/piece_selection.py`,
class `PieceSelectionManager`) -/

/-- State of `PieceSelectionManager` (piece_selection.py:88–102);
`rarest_active` records whether `active_strategy` has switched from the
random-first strategy (threshold 4) to rarest-first. -/
structure SelectionManager where
  piece_count : Nat
  max_pipeline_depth : Nat
  downloaded_pieces : Nat
  in_progress_pieces : List (Nat × Rat)
  rarest_active : Bool
  deriving DecidableEq, Repr

/-- `PieceSelectionManager.update_piece_progress` (piece_selection.py:104–117). -/
def SelectionManager.update_piece_progress (psm : SelectionManager) (piece_id : Nat)
    (progress : Rat) : SelectionManager :=
  if 1 ≤ progress then
    let psm₁ := { psm with
        in_progress_pieces := eraseKey psm.in_progress_pieces piece_id
        downloaded_pieces := psm.downloaded_pieces + 1 }
    if 4 ≤ psm₁.downloaded_pieces ∧ ¬ psm.rarest_active then
      { psm₁ with rarest_active := true }
    else psm₁
  else { psm with in_progress_pieces := setKey psm.in_progress_pieces piece_id progress }

/-! ## Node (`src/core/node.py`)

The fields below are the `Node.__init__` attributes the claims touch;
`peer_connections` keeps only the connection keys (the wrapper objects
are modelled by the frames sent to them), `stats` is
`upload_manager.peer_stats`, `seeding` records `self.state` having been
replaced by `SeederState()`, and `tracker_connected` whether
`tracker_connection` is live.  Frames written to sockets are returned as
a list of `(destination, frame)` events. -/

/-- An entry of `Node.pending_requests` (node.py:190–193). -/
structure PendingReq where
  peer : String
  timestamp : Time
  deriving DecidableEq, Repr

inductive Frame where
  | piece_request (piece_id : Nat)
  | piece_response (piece_id : Nat) (data_hex : String)
  | cancel_request (piece_id : Nat)
  | update_pieces (pieces : List Nat)
  | choke
  | unchoke
  deriving DecidableEq, Repr

inductive Dest where
  | peer (address : String)
  | tracker
  deriving DecidableEq, Repr

/-- One outbound send event. -/
abbrev Sent := Dest × Frame

structure Node where
  my_pieces : List Nat
  pending_requests : List (Nat × PendingReq)
  unchoked_peers : List String
  choked_peers : List String
  peer_connections : List String
  peer_pieces : List (String × List Nat)
  stats : List (String × PeerStat)
  piece_manager : PieceManager
  selection : Option SelectionManager
  tracker_connected : Bool
  seeding : Bool
  deriving DecidableEq, Repr

/-- The expected length of a piece: `L` except for the last piece, which
holds the remaining `T − (N−1)·L` bytes. -/
def PieceManager.expected_length (pm : PieceManager) (piece_id : Nat) : Nat :=
  min pm.piece_size (pm.total_size - piece_id * pm.piece_size)

/-- Modelled from the spec: `PieceManager.get_piece_data` is invoked by
`Node._send_piece` (node.py:495) and stubbed by the unit tests, but no
definition of it exists under src/.  Per spec §6 (Persisted state) each
verified piece is written at its natural offset `piece_id · L` of the
backing file, the last piece holding `T − (N−1)·L` bytes (§3); reading a
piece therefore returns the `expected_length` bytes at that offset (empty
when storage is uninitialized, which `_send_piece` treats as failure). -/
def PieceManager.get_piece_data (pm : PieceManager) (piece_id : Nat) : ByteStr :=
  match pm.backing_file with
  | none => []
  | some f => (f.drop (piece_id * pm.piece_size)).take (pm.expected_length piece_id)

namespace Node

/-- `Node._send_piece` (node.py:483–509): nothing happens without a
connection entry for `address`; empty piece data (`if not data`) aborts;
otherwise a `piece_response` frame carrying the hex-encoded bytes goes to
the peer and the upload statistic is credited. -/
def send_piece (now : Time) (node : Node) (piece_id : Nat) (address : String) :
    Node × List Sent :=
  if ¬ address ∈ node.peer_connections then (node, [])
  else
    let data := node.piece_manager.get_piece_data piece_id
    if data = [] then (node, [])
    else
      ({ node with stats := update_peer_stats now node.stats address 0 data.length },
        [(Dest.peer address, Frame.piece_response piece_id (bytesToHex data))])

/-- `Node._handle_piece_received` (node.py:448–481): pop the pending
entry, hand the bytes to `piece_manager.receive_piece` (which reports
success unconditionally and verifies later), and then — when the source
peer is known and truthy — credit its download statistic, add the piece
to `my_pieces`, announce the bitmap to a live tracker, update the
selection manager, and switch to seeding when the store is complete. -/
def handle_piece_received (now : Time) (node : Node) (piece_id : Nat) (data : ByteStr) :
    Node × List Sent :=
  let entry := lookupKey node.pending_requests piece_id
  let node₁ := { node with pending_requests := eraseKey node.pending_requests piece_id }
  let r := node₁.piece_manager.receive_piece piece_id data
  let node₂ := { node₁ with piece_manager := r.1 }
  let peerTruthy : Bool := match entry with
    | some e => decide (e.peer ≠ "")
    | none => false
  if r.2 ∧ peerTruthy then
    let peer := (entry.map PendingReq.peer).getD ""
    let node₃ := { node₂ with
        stats := update_peer_stats now node₂.stats peer data.length 0
        my_pieces := setInsert node₂.my_pieces piece_id }
    let trackerOut :=
      if node₃.tracker_connected then [(Dest.tracker, Frame.update_pieces node₃.my_pieces)]
      else []
    let node₄ := { node₃ with
        selection := node₃.selection.map
          (fun s => SelectionManager.update_piece_progress s piece_id 1) }
    let node₅ := if node₄.piece_manager.is_complete then { node₄ with seeding := true }
                 else node₄
    (node₅, trackerOut)
  else (node₂, [])

/-- The inbound frames `Node._handle_peer_message` dispatches on that the
claims concern.  Payload fields are `payload.get(...)` results, hence
`Option`s.  (`cancel_request` only logs; `interested`/`not_interested`
touch per-connection flags held by the socket wrappers, outside this
state.) -/
inductive InMessage where
  | piece_request (piece_id : Option Nat)
  | piece_response (piece_id : Option Nat) (data : Option String)
  | cancel_request (piece_id : Option Nat)
  deriving DecidableEq, Repr

/-- `Node._handle_peer_message` (node.py:511–563).  For `piece_request`
the guard is `piece_id in self.my_pieces and address in
self.unchoked_peers`; for `piece_response` the guard is the Python
truthiness test `piece_id and data_hex and piece_id in
self.pending_requests` — note that `piece_id = 0` and `data_hex = ""` are
falsy — followed by `bytes.fromhex`, whose `ValueError` is caught and
logged. -/
def handle_peer_message (now : Time) (node : Node) (msg : InMessage) (address : String) :
    Node × List Sent :=
  match msg with
  | .piece_request pid =>
    let inMine : Bool := match pid with
      | some p => decide (p ∈ node.my_pieces)
      | none => false
    if inMine ∧ address ∈ node.unchoked_peers then
      send_piece now node (pid.getD 0) address
    else (node, [])
  | .piece_response pid dhex =>
    let pidTruthy : Bool := match pid with
      | some p => decide (p ≠ 0)
      | none => false
    let dhexTruthy : Bool := match dhex with
      | some s => decide (s ≠ "")
      | none => false
    if pidTruthy ∧ dhexTruthy ∧ hasKey node.pending_requests (pid.getD 0) then
      match bytes_fromhex (dhex.getD "") with
      | some data => handle_piece_received now node (pid.getD 0) data
      | none => (node, [])
    else (node, [])
  | .cancel_request _ => (node, [])

end Node

/-- A two-piece node with requests for pieces 0 and 1 pending at peer
`"p1"`, neither piece received yet. -/
def nodeTwoPending : Node :=
  { my_pieces := []
    pending_requests := [(0, ⟨"p1", 0⟩), (1, ⟨"p1", 0⟩)]
    unchoked_peers := []
    choked_peers := []
    peer_connections := ["p1"]
    peer_pieces := [("p1", [0, 1])]
    stats := []
    piece_manager :=
      { piece_size := 1
        pieces_hashes := ["aa", "bb"]
        total_size := 2
        completed_pieces := []
        in_progress_pieces := [(0, 0), (1, 0)]
        pending_verification := []
        backing_file := some [0, 0] }
    selection := none
    tracker_connected := false
    seeding := false }

/-- C3.  The claim says every `piece_response{id, data}` with `id` in the
pending-request map and valid hex data is accepted — removed from
pending, credited, submitted — "including id = 0".  The guard in the
source is `if piece_id and data_hex and piece_id in self.pending_requests`
(node.py:532), and `0` is falsy in Python: on a node whose pending map
contains piece 0, a well-formed `piece_response` for piece 0 is dropped
with no state change at all, while the same frame for piece 1 is accepted
(pending entry removed, download statistic credited with the one decoded
byte, bytes handed to the piece store). -/
theorem piece_zero_response_dropped :
    hasKey nodeTwoPending.pending_requests 0 = true ∧
    Node.handle_peer_message 1 nodeTwoPending
        (Node.InMessage.piece_response (some 0) (some "ab")) "p1" = (nodeTwoPending, []) ∧
    lookupKey (Node.handle_peer_message 1 nodeTwoPending
        (Node.InMessage.piece_response (some 1) (some "ab")) "p1").1.pending_requests 1 = none ∧
    (lookupKey (Node.handle_peer_message 1 nodeTwoPending
        (Node.InMessage.piece_response (some 1) (some "ab")) "p1").1.stats "p1").map
      PeerStat.download_total = some 1 ∧
    lookupKey (Node.handle_peer_message 1 nodeTwoPending
        (Node.InMessage.piece_response (some 1) (some "ab")) "p1").1.piece_manager.pending_verification
      1 = some [171] := by
  decide

/-- C4.  For an inbound `piece_request{id}` from a connected peer whose
stored piece bytes are non-empty, the node answers with exactly one
`piece_response` carrying the hex-encoded piece iff `id ∈ my_pieces` and
the peer is currently unchoked; in every other case the request is
silently dropped: no frame is sent and the node is unchanged.
(`get_piece_data` is modelled from the spec, see its docstring.) -/
theorem piece_request_served_iff (now : Time) (node : Node) (piece_id : Nat)
    (address : String)
    (hconn : address ∈ node.peer_connections)
    (hdata : node.piece_manager.get_piece_data piece_id ≠ []) :
    ((Node.handle_peer_message now node (Node.InMessage.piece_request (some piece_id))
        address).2 ≠ [] ↔
      (piece_id ∈ node.my_pieces ∧ address ∈ node.unchoked_peers)) ∧
    (piece_id ∈ node.my_pieces ∧ address ∈ node.unchoked_peers →
      (Node.handle_peer_message now node (Node.InMessage.piece_request (some piece_id))
          address).2 =
        [(Dest.peer address, Frame.piece_response piece_id
            (bytesToHex (node.piece_manager.get_piece_data piece_id)))]) ∧
    (¬ (piece_id ∈ node.my_pieces ∧ address ∈ node.unchoked_peers) →
      Node.handle_peer_message now node (Node.InMessage.piece_request (some piece_id))
          address = (node, [])) := by
  by_cases h₁ : piece_id ∈ node.my_pieces <;>
    by_cases h₂ : address ∈ node.unchoked_peers <;>
      simp [Node.handle_peer_message, Node.send_piece, h₁, h₂, hconn, hdata]

/-- A one-piece seeder-side node: piece 0 complete on disk, peer `"p1"`
connected and unchoked. -/
def nodeServe : Node :=
  { my_pieces := [0]
    pending_requests := []
    unchoked_peers := ["p1"]
    choked_peers := []
    peer_connections := ["p1"]
    peer_pieces := []
    stats := []
    piece_manager :=
      { piece_size := 2
        pieces_hashes := ["aa"]
        total_size := 2
        completed_pieces := [0]
        in_progress_pieces := []
        pending_verification := []
        backing_file := some [7, 8] }
    selection := none
    tracker_connected := false
    seeding := false }

/-- Witness for C4 at the concrete node `nodeServe`, requester `"p1"`,
piece 0. -/
theorem piece_request_served_iff_witness :
    ("p1" ∈ nodeServe.peer_connections ∧
      nodeServe.piece_manager.get_piece_data 0 ≠ []) ∧
    (((Node.handle_peer_message 1 nodeServe (Node.InMessage.piece_request (some 0))
          "p1").2 ≠ [] ↔
        (0 ∈ nodeServe.my_pieces ∧ "p1" ∈ nodeServe.unchoked_peers)) ∧
      (0 ∈ nodeServe.my_pieces ∧ "p1" ∈ nodeServe.unchoked_peers →
        (Node.handle_peer_message 1 nodeServe (Node.InMessage.piece_request (some 0))
            "p1").2 =
          [(Dest.peer "p1", Frame.piece_response 0
              (bytesToHex (nodeServe.piece_manager.get_piece_data 0)))]) ∧
      (¬ (0 ∈ nodeServe.my_pieces ∧ "p1" ∈ nodeServe.unchoked_peers) →
        Node.handle_peer_message 1 nodeServe (Node.InMessage.piece_request (some 0))
            "p1" = (nodeServe, []))) :=
  ⟨⟨by decide, by decide⟩,
    piece_request_served_iff 1 nodeServe 0 "p1" (by decide) (by decide)⟩

/-! ## Endgame state (`src/states/leecher_state.py`, class `EndgameState`) -/

/-- Python runtime errors that reach the embedding. -/
inductive PyErr where
  | attributeError
  deriving DecidableEq, Repr

/-- `EndgameState._get_peers_with_pieces` (leecher_state.py:137–147):
the connected-swarm peers that hold the piece and are currently
unchoked. -/
def getPeersWithPieces (node : Node) (piece_id : Nat) : List String :=
  (node.peer_pieces.filter
    (fun e => piece_id ∈ e.2 ∧ e.1 ∈ node.unchoked_peers)).map Prod.fst

/-- `EndgameState.handle_piece_complete` (leecher_state.py:149–159):
send `cancel_request` to every connected peer whose reported piece set
contains the piece — regardless of whether that peer was ever asked
for it. -/
def handlePieceComplete (node : Node) (piece_id : Nat) : List Sent :=
  (node.peer_connections.filter
    (fun a => match lookupKey node.peer_pieces a with
      | some ps => decide (piece_id ∈ ps)
      | none => false)).map
    (fun a => (Dest.peer a, Frame.cancel_request piece_id))

/-- `EndgameState._request_all_remaining_pieces` (leecher_state.py:121–135).
After the early returns (`not self.node`, no piece manager, empty needed
list), the loop body's first statement is
`peers_with_piece = self._get_peers_with_piece(piece_id)` — a name that is
defined nowhere on `EndgameState`, `NodeState` or their bases (the method
defined at line 137 is `_get_peers_with_pieces`, with a plural s), so the
first loop iteration raises `AttributeError` before any request is
issued. -/
def requestAllRemainingPieces (node : Node) : Except PyErr (List Sent) :=
  match node.piece_manager.get_needed_pieces with
  | [] => Except.ok []
  | _ :: _ => Except.error PyErr.attributeError

/-- `EndgameState.update` (leecher_state.py:111–119): transition to
seeding when complete, otherwise run the request fan-out. -/
def endgameUpdate (node : Node) : Except PyErr (Node × List Sent) :=
  if node.piece_manager.is_complete then Except.ok ({ node with seeding := true }, [])
  else (requestAllRemainingPieces node).map (fun outs => (node, outs))

/-- C7.  The claim (and spec §4.4 regime 3) says the Endgame update issues
`piece_request` frames for every remaining missing piece to up to 3
holders.  In the source the fan-out can never run: whenever any piece is
still needed, `_request_all_remaining_pieces` calls the undefined
attribute `_get_peers_with_piece` (the defined method is
`_get_peers_with_pieces`) and raises `AttributeError` with no request
issued. -/
theorem endgame_request_pump_raises (node : Node)
    (h : node.piece_manager.get_needed_pieces ≠ []) :
    requestAllRemainingPieces node = Except.error PyErr.attributeError := by
  unfold requestAllRemainingPieces
  cases hn : node.piece_manager.get_needed_pieces with
  | nil => exact absurd hn h
  | cons a l => rfl

/-- A node still missing its single piece, in endgame. -/
def nodeEndgame : Node :=
  { my_pieces := []
    pending_requests := []
    unchoked_peers := ["p1"]
    choked_peers := []
    peer_connections := ["p1"]
    peer_pieces := [("p1", [0])]
    stats := []
    piece_manager :=
      { piece_size := 2
        pieces_hashes := ["aa"]
        total_size := 2
        completed_pieces := []
        in_progress_pieces := []
        pending_verification := []
        backing_file := some [0, 0] }
    selection := none
    tracker_connected := false
    seeding := false }

/-- Witness for C7: `nodeEndgame` needs piece 0 and the endgame request
pump dies with `AttributeError`. -/
theorem endgame_request_pump_raises_witness :
    nodeEndgame.piece_manager.get_needed_pieces ≠ [] ∧
    requestAllRemainingPieces nodeEndgame = Except.error PyErr.attributeError :=
  ⟨by decide, endgame_request_pump_raises nodeEndgame (by decide)⟩

/-! ## Tracker (`src/core/tracker.py`, class `Tracker`)

`active_peers` maps `"<host>:<port>"` strings to
`{"last_seen": ..., "pieces": [...]}` entries.  Observer notifications
(`Subject.notify`) carry no tracker state and are omitted. -/

/-- One `active_peers` entry. -/
structure PeerInfo where
  last_seen : Time
  pieces : List Nat
  deriving DecidableEq, Repr

/-- An address as the tracker receives it: either an
`"<host>:<port>"` string (from a `peer_joined` payload) or a
`(host, port)` socket tuple (from `_handle_client`). -/
inductive AddrInput where
  | str (s : String)
  | tup (host : String) (port : Nat)
  deriving DecidableEq, Repr

/-- `Tracker._format_address` (tracker.py:34–38). -/
def formatAddress : AddrInput → String
  | .str s => s
  | .tup h p => h ++ ":" ++ toString p

/-- `Tracker._find_peer_address` (tracker.py:40–66): exact key match
first; for localhost tuples, fall back to the single registered peer or a
port-suffix match; for any tuple, fall back to an IP-prefix match;
otherwise return the formatted address unchanged. -/
def findPeerAddress (active : List (String × PeerInfo)) (address : AddrInput) : String :=
  let std := formatAddress address
  if hasKey active std then std
  else
    let keys := active.map Prod.fst
    let afterLocal : Option String :=
      match address with
      | .tup host port =>
        if host = "127.0.0.1" then
          if active.length = 1 then keys.head?
          else keys.find? (fun k => k.endsWith (":" ++ toString port))
        else none
      | .str _ => none
    match afterLocal with
    | some k => k
    | none =>
      match address with
      | .tup host _ =>
        match keys.find? (fun k => k.startsWith (host ++ ":")) with
        | some k => k
        | none => std
      | .str _ => std

/-- `Tracker.get_all_peers` (tracker.py:202–211): the registry as a list
of `(address, pieces)` records. -/
def getAllPeers (active : List (String × PeerInfo)) : List (String × List Nat) :=
  active.map (fun e => (e.1, e.2.pieces))

/-- `Tracker.register_peer` (tracker.py:179–188): unconditionally set the
entry for the formatted address to fresh (`last_seen = now`, no pieces)
and return the full peer list. -/
def registerPeer (now : Time) (active : List (String × PeerInfo)) (address : AddrInput) :
    List (String × PeerInfo) × List (String × List Nat) :=
  let std := formatAddress address
  let updated := setKey active std { last_seen := now, pieces := [] }
  (updated, getAllPeers updated)

/-- `Tracker.update_peer_pieces` (tracker.py:190–200): resolve the
address with `_find_peer_address`; when the resolved key is registered,
replace that peer's pieces and refresh `last_seen`; otherwise only
log. -/
def updatePeerPieces (now : Time) (active : List (String × PeerInfo)) (address : AddrInput)
    (pieces : List Nat) : List (String × PeerInfo) :=
  let peer_address := findPeerAddress active address
  if hasKey active peer_address then
    setKey active peer_address { last_seen := now, pieces := pieces }
  else active

/-- A registry holding the single peer `"10.0.0.1:80"`. -/
def trOne : List (String × PeerInfo) := [("10.0.0.1:80", { last_seen := 0, pieces := [] })]

/-- C8 (counterexample).  The claim says an unregistered address leaves
the registry unchanged.  With one registered peer `"10.0.0.1:80"`, an
`update_pieces` arriving from the unregistered socket address
`("127.0.0.1", 99)` is redirected by `_find_peer_address`'s
single-peer-localhost heuristic and overwrites the registered peer's
pieces and `last_seen`. -/
theorem update_pieces_unknown_addr_mutates_cex :
    hasKey trOne (formatAddress (AddrInput.tup "127.0.0.1" 99)) = false ∧
    lookupKey (updatePeerPieces 5 trOne (AddrInput.tup "127.0.0.1" 99) [1]) "10.0.0.1:80" =
      some { last_seen := 5, pieces := [1] } ∧
    updatePeerPieces 5 trOne (AddrInput.tup "127.0.0.1" 99) [1] ≠ trOne := by
  decide

/-- C8 (amended).  `update_pieces` resolves the address through
`_find_peer_address`.  When the formatted address itself is registered,
the claim holds exactly: that entry alone is replaced (pieces := pieces,
last_seen := now) and every other entry is untouched.  An unknown
address leaves the registry unchanged when it is a plain
`"<host>:<port>"` string; an unknown socket tuple, however, may be
redirected by the localhost/IP heuristics onto a registered peer (see the
counterexample). -/
theorem update_peer_pieces_spec (now : Time) (active : List (String × PeerInfo))
    (address : AddrInput) (pieces : List Nat) :
    (hasKey active (formatAddress address) = true →
      lookupKey (updatePeerPieces now active address pieces) (formatAddress address) =
        some { last_seen := now, pieces := pieces } ∧
      ∀ a, a ≠ formatAddress address →
        lookupKey (updatePeerPieces now active address pieces) a = lookupKey active a) ∧
    (∀ s, address = AddrInput.str s → hasKey active s = false →
      updatePeerPieces now active address pieces = active) := by
  constructor
  · intro h
    have hfind : findPeerAddress active address = formatAddress address := by
      unfold findPeerAddress
      rw [if_pos h]
    unfold updatePeerPieces
    rw [hfind, if_pos h]
    exact ⟨lookupKey_setKey_self _ _ _, fun a ha => lookupKey_setKey_ne _ _ _ _ ha⟩
  · rintro s rfl h
    have hfind : findPeerAddress active (AddrInput.str s) = s := by
      unfold findPeerAddress
      rw [if_neg (by simp [formatAddress, h])]
      rfl
    unfold updatePeerPieces
    rw [hfind]
    simp [h]

/-- Witness for C8 (amended) at a registered string address and an
unknown string address. -/
theorem update_peer_pieces_spec_witness :
    (hasKey trOne (formatAddress (AddrInput.str "10.0.0.1:80")) = true ∧
      lookupKey (updatePeerPieces 7 trOne (AddrInput.str "10.0.0.1:80") [2])
          (formatAddress (AddrInput.str "10.0.0.1:80")) =
        some { last_seen := 7, pieces := [2] }) ∧
    (hasKey trOne "9.9.9.9:1" = false ∧
      updatePeerPieces 7 trOne (AddrInput.str "9.9.9.9:1") [2] = trOne) := by
  refine ⟨⟨by decide, ?_⟩, ⟨by decide, ?_⟩⟩
  · exact ((update_peer_pieces_spec 7 trOne (AddrInput.str "10.0.0.1:80") [2]).1
      (by decide)).1
  · exact (update_peer_pieces_spec 7 trOne (AddrInput.str "9.9.9.9:1") [2]).2
      "9.9.9.9:1" rfl (by decide)

theorem hasKey_mem_keys {K V : Type} [DecidableEq K] (d : List (K × V)) (k : K)
    (h : hasKey d k = true) : k ∈ d.map Prod.fst := by
  induction d with
  | nil => simp [hasKey, lookupKey] at h
  | cons hd tl ih =>
    obtain ⟨k₀, v₀⟩ := hd
    by_cases hk : k₀ = k
    · simp [hk]
    · simp only [hasKey, lookupKey_cons, if_neg hk] at h
      simp only [List.map_cons, List.mem_cons]
      exact Or.inr (ih h)

theorem mem_keys_setKey {K V : Type} [DecidableEq K] (d : List (K × V)) (k a : K) (v : V) :
    a ∈ (setKey d k v).map Prod.fst ↔ a ∈ d.map Prod.fst ∨ a = k := by
  induction d with
  | nil => simp [setKey]
  | cons hd tl ih =>
    obtain ⟨k₀, v₀⟩ := hd
    by_cases hk : k₀ = k
    · subst hk
      simp [setKey]
      tauto
    · simp [setKey, hk, ih]
      tauto

theorem nodup_keys_setKey {K V : Type} [DecidableEq K] (d : List (K × V)) (k : K) (v : V)
    (h : (d.map Prod.fst).Nodup) : ((setKey d k v).map Prod.fst).Nodup := by
  induction d with
  | nil => simp [setKey]
  | cons hd tl ih =>
    obtain ⟨k₀, v₀⟩ := hd
    simp only [List.map_cons, List.nodup_cons] at h
    by_cases hk : k₀ = k
    · subst hk
      simpa [setKey] using h
    · simp only [setKey, if_neg hk, List.map_cons, List.nodup_cons]
      refine ⟨?_, ih h.2⟩
      rw [mem_keys_setKey]
      rintro (hm | rfl)
      · exact h.1 hm
      · exact hk rfl

/-- C9.  `register_peer` unconditionally resets the entry for the
formatted address to an empty piece list with `last_seen = now` — a
re-registration discards the previously reported pieces — leaves every
other entry unchanged, returns the full peer list, and (the registry
being a dict) repeated registrations of one address never create
duplicate swarm entries. -/
theorem register_peer_spec (now : Time) (active : List (String × PeerInfo))
    (address : AddrInput) (h : (active.map Prod.fst).Nodup) :
    lookupKey (registerPeer now active address).1 (formatAddress address) =
      some { last_seen := now, pieces := [] } ∧
    (∀ a, a ≠ formatAddress address →
      lookupKey (registerPeer now active address).1 a = lookupKey active a) ∧
    (registerPeer now active address).2 = getAllPeers (registerPeer now active address).1 ∧
    ((registerPeer now active address).1.map Prod.fst).Nodup :=
  ⟨lookupKey_setKey_self _ _ _,
    fun _a ha => lookupKey_setKey_ne _ _ _ _ ha,
    rfl,
    nodup_keys_setKey _ _ _ h⟩

/-- A registry with two peers, the first of which has reported pieces. -/
def trTwo : List (String × PeerInfo) :=
  [("10.0.0.1:80", { last_seen := 0, pieces := [1, 2] }),
   ("10.0.0.2:81", { last_seen := 0, pieces := [3] })]

/-- Witness for C9: re-registering `"10.0.0.1:80"` resets its pieces to
empty, leaves the other peer alone, and keeps the membership
duplicate-free. -/
theorem register_peer_spec_witness :
    (trTwo.map Prod.fst).Nodup ∧
    (lookupKey (registerPeer 9 trTwo (AddrInput.str "10.0.0.1:80")).1
        (formatAddress (AddrInput.str "10.0.0.1:80")) =
      some { last_seen := 9, pieces := [] } ∧
    (∀ a, a ≠ formatAddress (AddrInput.str "10.0.0.1:80") →
      lookupKey (registerPeer 9 trTwo (AddrInput.str "10.0.0.1:80")).1 a =
        lookupKey trTwo a) ∧
    (registerPeer 9 trTwo (AddrInput.str "10.0.0.1:80")).2 =
      getAllPeers (registerPeer 9 trTwo (AddrInput.str "10.0.0.1:80")).1 ∧
    ((registerPeer 9 trTwo (AddrInput.str "10.0.0.1:80")).1.map Prod.fst).Nodup) :=
  ⟨by decide, register_peer_spec 9 trTwo (AddrInput.str "10.0.0.1:80") (by decide)⟩

/-! ## Choking strategies (`src/strategies/choking.py`)

`sorted(peer_stats.items(), key=lambda x: x[1].get('download_rate', 0),
reverse=True)` is a stable descending sort, modelled with `sortLE` under
the comparison `rateGE` (an element may stay in front of a later one iff
its rate is at least as large). -/

/-- Descending-by-download-rate comparison for the stable sort. -/
def rateGE (a b : String × PeerStat) : Bool :=
  decide (b.2.download_rate ≤ a.2.download_rate)

/-- `TitForTatStrategy.select_unchoked_peers` (choking.py:77–94): the set
of the top `max_unchoked` peers by download rate, as a list of keys. -/
def TitForTatStrategy.select_unchoked_peers (peer_stats : List (String × PeerStat))
    (max_unchoked : Nat) : List String :=
  ((sortLE rateGE peer_stats).take max_unchoked).map Prod.fst

/-- State of `OptimisticUnchokeStrategy` (choking.py:15–19). -/
structure OptState where
  optimistic_unchoked : Option String
  last_rotation : Time
  rotation_interval : Time
  deriving DecidableEq, Repr

/-- The rotation step of `OptimisticUnchokeStrategy.select_unchoked_peers`
(choking.py:32–38): rotate when the current pick is falsy or the
rotation interval has elapsed; `random.choice` over the peer keys is the
abstract `choice` parameter; no change when there are no peers. -/
def rotateOptimistic (choice : List String → String) (now : Time) (st : OptState)
    (peer_stats : List (String × PeerStat)) : OptState :=
  let needRotate : Bool := match st.optimistic_unchoked with
    | none => true
    | some s => decide (s = "") || decide (st.rotation_interval < now - st.last_rotation)
  if needRotate then
    match peer_stats.map Prod.fst with
    | [] => st
    | _ :: _ => { st with
        optimistic_unchoked := some (choice (peer_stats.map Prod.fst))
        last_rotation := now }
  else st

/-- The initial `unchoked_peers`/`selected_peers` (choking.py:50–55): the
optimistic pick, when truthy and currently a key of `peer_stats`. -/
def optSeed (st : OptState) (peer_stats : List (String × PeerStat)) : List String :=
  match st.optimistic_unchoked with
  | some o => if o ≠ "" ∧ hasKey peer_stats o then [o] else []
  | none => []

/-- The two filling loops (choking.py:57–68): walk the candidates, adding
each not-yet-selected peer while slots remain. -/
def addLoop : List String → List String → Nat → List String × Nat
  | [], acc, remaining => (acc, remaining)
  | c :: cs, acc, remaining =>
    if ¬ c ∈ acc ∧ 0 < remaining then addLoop cs (acc ++ [c]) (remaining - 1)
    else addLoop cs acc remaining

/-- `OptimisticUnchokeStrategy.select_unchoked_peers` (choking.py:20–69):
rotate the optimistic pick, seed the selection with it, fill the
remaining `max_unchoked − |seed|` slots from the rate-sorted peers, then
(edge case) from all keys. -/
def OptimisticUnchokeStrategy.select_unchoked_peers (choice : List String → String)
    (now : Time) (st : OptState) (peer_stats : List (String × PeerStat))
    (max_unchoked : Nat) : OptState × List String :=
  let st₁ := rotateOptimistic choice now st peer_stats
  let seed := optSeed st₁ peer_stats
  let r₁ := addLoop ((sortLE rateGE peer_stats).map Prod.fst) seed
    (max_unchoked - seed.length)
  let r₂ := addLoop (peer_stats.map Prod.fst) r₁.1 r₁.2
  (st₁, r₂.1)

theorem mem_foldl_insertLE {α : Type} (le : α → α → Bool) (z : α) :
    ∀ (l acc : List α), z ∈ l.foldl (fun acc x => insertLE le x acc) acc →
      z ∈ acc ∨ z ∈ l := by
  intro l
  induction l with
  | nil =>
    intro acc h
    exact Or.inl h
  | cons x xs ih =>
    intro acc h
    simp only [List.foldl_cons] at h
    rcases ih (insertLE le x acc) h with h | h
    · rcases mem_insertLE le x z acc h with h | h
      · exact Or.inr (List.mem_cons.mpr (Or.inl h))
      · exact Or.inl h
    · exact Or.inr (List.mem_cons.mpr (Or.inr h))

theorem mem_sortLE {α : Type} (le : α → α → Bool) (z : α) (l : List α)
    (h : z ∈ sortLE le l) : z ∈ l := by
  rcases mem_foldl_insertLE le z l [] h with h | h
  · exact absurd h (List.not_mem_nil z)
  · exact h

theorem addLoop_length_bound :
    ∀ (cs acc : List String) (remaining : Nat),
      (addLoop cs acc remaining).1.length + (addLoop cs acc remaining).2 ≤
        acc.length + remaining := by
  intro cs
  induction cs with
  | nil =>
    intro acc remaining
    exact Nat.le_refl _
  | cons c cs ih =>
    intro acc remaining
    unfold addLoop
    split_ifs with h
    · refine le_trans (ih (acc ++ [c]) (remaining - 1)) ?_
      simp only [List.length_append, List.length_singleton]
      omega
    · exact ih acc remaining

theorem addLoop_mem (p : String) :
    ∀ (cs acc : List String) (remaining : Nat),
      p ∈ (addLoop cs acc remaining).1 → p ∈ acc ∨ p ∈ cs := by
  intro cs
  induction cs with
  | nil =>
    intro acc remaining h
    exact Or.inl h
  | cons c cs ih =>
    intro acc remaining h
    unfold addLoop at h
    split_ifs at h with hc
    · rcases ih (acc ++ [c]) (remaining - 1) h with h | h
      · rcases List.mem_append.mp h with h | h
        · exact Or.inl h
        · simp only [List.mem_singleton] at h
          exact Or.inr (List.mem_cons.mpr (Or.inl h))
      · exact Or.inr (List.mem_cons.mpr (Or.inr h))
    · rcases ih acc remaining h with h | h
      · exact Or.inl h
      · exact Or.inr (List.mem_cons.mpr (Or.inr h))

theorem addLoop_twice_bound (l₁ l₂ seed : List String) (max_unchoked : Nat)
    (hseed : seed.length ≤ max_unchoked) :
    (addLoop l₂ (addLoop l₁ seed (max_unchoked - seed.length)).1
      (addLoop l₁ seed (max_unchoked - seed.length)).2).1.length ≤ max_unchoked := by
  have h₁ := addLoop_length_bound l₁ seed (max_unchoked - seed.length)
  have h₂ := addLoop_length_bound l₂ (addLoop l₁ seed (max_unchoked - seed.length)).1
    (addLoop l₁ seed (max_unchoked - seed.length)).2
  omega

theorem optSeed_length_le_one (st : OptState) (peer_stats : List (String × PeerStat)) :
    (optSeed st peer_stats).length ≤ 1 := by
  unfold optSeed
  cases st.optimistic_unchoked with
  | none => exact Nat.zero_le 1
  | some o =>
    dsimp only
    split_ifs <;> simp

theorem optSeed_subset (st : OptState) (peer_stats : List (String × PeerStat)) (p : String)
    (h : p ∈ optSeed st peer_stats) : p ∈ peer_stats.map Prod.fst := by
  unfold optSeed at h
  cases hos : st.optimistic_unchoked with
  | none =>
    rw [hos] at h
    exact absurd h (List.not_mem_nil p)
  | some o =>
    rw [hos] at h
    dsimp only at h
    split_ifs at h with hcond
    · simp only [List.mem_singleton] at h
      subst h
      exact hasKey_mem_keys _ _ hcond.2
    · exact absurd h (List.not_mem_nil p)

/-- C10.  With at least one upload slot, both choking strategies return
at most `max_unchoked` peers, every one of which is a key of the given
`peer_stats` map (the optimistic pick is an arbitrary `choice` over the
keys and is only seeded when it is present in the map). -/
theorem choking_select_bounded (peer_stats : List (String × PeerStat))
    (max_unchoked : Nat) (choice : List String → String) (now : Time) (st : OptState)
    (h : 1 ≤ max_unchoked) :
    ((TitForTatStrategy.select_unchoked_peers peer_stats max_unchoked).length ≤
        max_unchoked ∧
      ∀ p ∈ TitForTatStrategy.select_unchoked_peers peer_stats max_unchoked,
        p ∈ peer_stats.map Prod.fst) ∧
    ((OptimisticUnchokeStrategy.select_unchoked_peers choice now st peer_stats
          max_unchoked).2.length ≤ max_unchoked ∧
      ∀ p ∈ (OptimisticUnchokeStrategy.select_unchoked_peers choice now st peer_stats
          max_unchoked).2,
        p ∈ peer_stats.map Prod.fst) := by
  constructor
  · constructor
    · unfold TitForTatStrategy.select_unchoked_peers
      rw [List.length_map, List.length_take]
      exact Nat.min_le_left _ _
    · intro p hp
      unfold TitForTatStrategy.select_unchoked_peers at hp
      rcases List.mem_map.mp hp with ⟨e, he, rfl⟩
      exact List.mem_map_of_mem Prod.fst (mem_sortLE rateGE e peer_stats
        (List.mem_of_mem_take he))
  · have hseed : (optSeed (rotateOptimistic choice now st peer_stats) peer_stats).length ≤
        max_unchoked :=
      le_trans (optSeed_length_le_one _ _) h
    constructor
    · exact addLoop_twice_bound _ _ _ _ hseed
    · intro p hp
      unfold OptimisticUnchokeStrategy.select_unchoked_peers at hp
      rcases addLoop_mem p _ _ _ hp with hp | hp
      · rcases addLoop_mem p _ _ _ hp with hp | hp
        · exact optSeed_subset _ _ _ hp
        · rcases List.mem_map.mp hp with ⟨e, he, rfl⟩
          exact List.mem_map_of_mem Prod.fst (mem_sortLE rateGE e peer_stats he)
      · exact hp

/-- Concrete stats map and optimistic-strategy state for the C10
witness. -/
def statsAB : List (String × PeerStat) :=
  [("a", { upload_total := 0, download_total := 0, upload_rate := 0,
           download_rate := 2, last_updated := 0 }),
   ("b", { upload_total := 0, download_total := 0, upload_rate := 0,
           download_rate := 3, last_updated := 0 })]

def optSt0 : OptState :=
  { optimistic_unchoked := none, last_rotation := 0, rotation_interval := 30 }

/-- Witness for C10: two peers with distinct rates and a single slot. -/
theorem choking_select_bounded_witness :
    (1 : Nat) ≤ 1 ∧
    (((TitForTatStrategy.select_unchoked_peers statsAB 1).length ≤ 1 ∧
        ∀ p ∈ TitForTatStrategy.select_unchoked_peers statsAB 1,
          p ∈ statsAB.map Prod.fst) ∧
      ((OptimisticUnchokeStrategy.select_unchoked_peers (fun l => l.headD "") 0
            optSt0 statsAB 1).2.length ≤ 1 ∧
        ∀ p ∈ (OptimisticUnchokeStrategy.select_unchoked_peers (fun l => l.headD "") 0
            optSt0 statsAB 1).2,
          p ∈ statsAB.map Prod.fst)) :=
  ⟨Nat.le_refl 1,
    choking_select_bounded statsAB 1 (fun l => l.headD "") 0 optSt0 (Nat.le_refl 1)⟩

/-! ## Frame codec (`src/network/messages.py`, class `Message`)

`Message.serialize` builds the Python dict
`{"type": msg_type, "payload": payload}` and passes it through
`json.dumps(...).encode("utf-8")`; `Message.deserialize` runs
`json.loads(data.decode("utf-8"))` and validates the structure.  The two
stdlib calls are external to the repository; on JSON-representable values
(`dict` with string keys / `list` / `str` / `int` / `bool` / `None`) they
are mutually inverse, so the byte stage is modelled as the identity on a
JSON value tree (`Json`) and the repository's own construction and
validation are modelled exactly. -/

/-- JSON-representable Python values.  Objects carry string keys, as
`json.dumps` requires for a faithful round trip. -/
inductive Json where
  | null
  | bool (b : Bool)
  | num (n : Int)
  | str (s : String)
  | arr (xs : List Json)
  | obj (kvs : List (String × Json))

/-- The closed `type` enumeration (`Message.VALID_TYPES`,
messages.py:7–20). -/
def VALID_TYPES : List String :=
  ["peer_joined", "peer_list", "piece_request", "piece_response",
   "update_pieces", "get_peers", "cancel_request", "stopped",
   "interested", "not_interested", "choke", "unchoke"]

/-- A constructed `Message` (messages.py:22–34); `__init__` raises
`ValueError` for a type outside the enumeration, so a value of this type
corresponds to a constructor call that did not raise. -/
structure Message where
  msg_type : String
  payload : Json

/-- `Message.__init__`'s validation, as the fallible constructor. -/
def mkMessage (msg_type : String) (payload : Json) : Except String Message :=
  if msg_type ∈ VALID_TYPES then Except.ok { msg_type := msg_type, payload := payload }
  else Except.error "Invalid message type"

/-- `Message.serialize` (messages.py:36–42), up to `json.dumps`: the
two-field record it hands to the JSON encoder. -/
def Message.serialize (m : Message) : Json :=
  Json.obj [("type", Json.str m.msg_type), ("payload", m.payload)]

/-- `Message.deserialize` (messages.py:44–80), after `json.loads`: demand
a dictionary with both a `type` and a `payload` member whose `type` is in
the enumeration (a non-string `type` is never in a list of strings), then
rebuild via the constructor.  (The `None`-on-incomplete-data branch lives
at the byte level, before a JSON value exists, and the error strings are
abbreviated.) -/
def Message.deserialize (j : Json) : Except String Message :=
  match j with
  | Json.obj kvs =>
    match lookupKey kvs "type", lookupKey kvs "payload" with
    | some t, some p =>
      match t with
      | Json.str ts => mkMessage ts p
      | _ => Except.error "Invalid message type"
    | _, _ => Except.error "Invalid message: missing type or payload"
  | _ => Except.error "Invalid message: not a dictionary"

/-- C5.  For every frame whose type is one of the twelve enumerated
types and whose payload is a JSON-representable dictionary, decoding the
encoding returns a message with the same type and the same payload. -/
theorem message_roundtrip (t : String) (kvs : List (String × Json))
    (h : t ∈ VALID_TYPES) :
    Message.deserialize (Message.serialize { msg_type := t, payload := Json.obj kvs }) =
      Except.ok { msg_type := t, payload := Json.obj kvs } := by
  have hred : Message.deserialize
      (Message.serialize { msg_type := t, payload := Json.obj kvs }) =
      mkMessage t (Json.obj kvs) := rfl
  rw [hred]
  unfold mkMessage
  rw [if_pos h]

/-- Witness for C5 at a concrete `piece_request` frame. -/
theorem message_roundtrip_witness :
    "piece_request" ∈ VALID_TYPES ∧
    Message.deserialize (Message.serialize
        { msg_type := "piece_request", payload := Json.obj [("piece_id", Json.num 0)] }) =
      Except.ok { msg_type := "piece_request",
                  payload := Json.obj [("piece_id", Json.num 0)] } :=
  ⟨by decide, message_roundtrip "piece_request" [("piece_id", Json.num 0)] (by decide)⟩

end P2P
